import Mathlib

/-!
# CHIP-8 virtual machine (`src/main.c`): embedding and verified properties

The C program keeps its machine in a `CPU` struct and a `display` array and
mutates both in `decode`.  Here the struct is a Lean structure, the fixed-size
arrays are functions from the index to the stored value, and every C function
becomes a pure function that returns the new state.  Machine integers are
natural numbers, reduced `% 256` wherever the C code stores the value of a
wider expression into an 8-bit object (a copy of one 8-bit object into another
keeps its value).  An access outside an array is undefined behaviour in C; the
embedding returns `none` there.
-/

namespace Chip8

/-! ## Constants (`#define`s and `enum opcodes`) -/

/-- `#define MEM 4096`. -/
def MEM : Nat := 4096

/-- `#define SCREEN_WIDTH 64`. -/
def SCREEN_WIDTH : Nat := 64

/-- `#define SCREEN_HEIGHT 32`. -/
def SCREEN_HEIGHT : Nat := 32

/-- `CLS = 0x00E0`, clear screen. -/
def CLS : Nat := 0x00E0

/-- `JUMP = 0x1000`, jump. -/
def JUMP : Nat := 0x1000

/-- `SET_VX = 0x6000`, set register VX. -/
def SET_VX : Nat := 0x6000

/-- `ADD_VX = 0x7000`, add value to register VX. -/
def ADD_VX : Nat := 0x7000

/-- `SET_I = 0xA000`, set index register I. -/
def SET_I : Nat := 0xA000

/-- `DRAW = 0xD000`, display/draw. -/
def DRAW : Nat := 0xD000

/-- The table `font_data[]`: sixteen glyphs of five bytes each. -/
def font_data : List Nat :=
  [0xF0, 0x90, 0x90, 0x90, 0xF0,
   0x20, 0x60, 0x20, 0x20, 0x70,
   0xF0, 0x10, 0xF0, 0x80, 0xF0,
   0xF0, 0x10, 0xF0, 0x10, 0xF0,
   0x90, 0x90, 0xF0, 0x10, 0x10,
   0xF0, 0x80, 0xF0, 0x10, 0xF0,
   0xF0, 0x80, 0xF0, 0x90, 0xF0,
   0xF0, 0x10, 0x20, 0x40, 0x40,
   0xF0, 0x90, 0xF0, 0x90, 0xF0,
   0xF0, 0x90, 0xF0, 0x10, 0xF0,
   0xF0, 0x90, 0xF0, 0x90, 0x90,
   0xE0, 0x90, 0xE0, 0x90, 0xE0,
   0xF0, 0x80, 0x80, 0x80, 0xF0,
   0xE0, 0x90, 0x90, 0x90, 0xE0,
   0xF0, 0x80, 0xF0, 0x80, 0xF0,
   0xF0, 0x80, 0xF0, 0x80, 0x80]

/-! ## Data model -/

/-- The struct `CPU`.  `memory` has `MEM` cells, `V` and `stack` have 16;
the value of each function outside those index ranges is never read by the
embedded code. -/
structure CPU where
  /-- the array `unsigned char memory[MEM]` -/
  memory : Nat → Nat
  /-- the array `unsigned char V[16]` -/
  V : Nat → Nat
  /-- the field `unsigned short I` -/
  I : Nat
  /-- the field `unsigned short PC` -/
  PC : Nat
  /-- the field `unsigned char delay_timer` -/
  delay_timer : Nat
  /-- the field `unsigned char sound_timer` -/
  sound_timer : Nat
  /-- the array `unsigned short stack[16]` -/
  stack : Nat → Nat
  /-- the field `unsigned short SP` -/
  SP : Nat

/-- The array `uint8_t display[SCREEN_HEIGHT][SCREEN_WIDTH]`, read as
`display y x`. -/
abbrev Display := Nat → Nat → Nat

/-- The assignment `display[y][x] = v`. -/
def setCell (display : Display) (y x v : Nat) : Display :=
  fun y' x' => if y' = y ∧ x' = x then v else display y' x'

/-- The assignment `cpu->V[i] = v`. -/
def setV (cpu : CPU) (i v : Nat) : CPU :=
  { cpu with V := fun j => if j = i then v else cpu.V j }

/-- Every cell of the 32 x 64 display holds an 8-bit value, as `uint8_t` cells
do. -/
def ByteDisplay (display : Display) : Prop :=
  ∀ y, y < SCREEN_HEIGHT → ∀ x, x < SCREEN_WIDTH → display y x < 256

/-- The loop `for (int i = 0; i < n; i++) body`: the state after `k + 1`
iterations is the body at index `k` run on the state after `k` iterations. -/
def forLoop {σ : Type} (body : Nat → σ → σ) : Nat → σ → σ
  | 0, s => s
  | k + 1, s => body k (forLoop body k s)

/-- The same loop for a body that may run into undefined behaviour: the loop
stops with `none` at the first iteration that does. -/
def forLoopM {σ : Type} (body : Nat → σ → Option σ) : Nat → σ → Option σ
  | 0, s => some s
  | k + 1, s =>
    match forLoopM body k s with
    | none => none
    | some s' => body k s'

/-! ## `fetch` -/

/-- The function `fetch`: `return cpu->memory[cpu->PC];`.  `PC` is not
changed.  A `PC` outside `memory[MEM]` is an out-of-bounds read. -/
def fetch (cpu : CPU) : Option Nat :=
  if cpu.PC < MEM then some (cpu.memory cpu.PC) else none

/-! ## The cases of `decode` -/

/-- `case CLS`: the two nested loops storing 0 into `display[y][x]`. -/
def caseCLS (display : Display) : Display :=
  forLoop (fun y d => forLoop (fun x d' => setCell d' y x 0) SCREEN_WIDTH d)
    SCREEN_HEIGHT display

/-- `case JUMP`: `uint8_t addr = fetch(cpu); cpu->PC = addr;`. -/
def caseJUMP (cpu : CPU) : Option CPU :=
  match fetch cpu with
  | none => none
  | some addr => some { cpu with PC := addr }

/-- `case SET_VX`: `reg = fetch(cpu); value = fetch(cpu); cpu->V[reg] = value;`.
A `reg` outside `V[16]` is an out-of-bounds store. -/
def caseSET_VX (cpu : CPU) : Option CPU :=
  match fetch cpu with
  | none => none
  | some reg =>
    match fetch cpu with
    | none => none
    | some value => if reg < 16 then some (setV cpu reg value) else none

/-- `case ADD_VX`: `reg = fetch(cpu); value = fetch(cpu); cpu->V[reg] += value;`
with the sum stored into an `unsigned char`. -/
def caseADD_VX (cpu : CPU) : Option CPU :=
  match fetch cpu with
  | none => none
  | some reg =>
    match fetch cpu with
    | none => none
    | some value =>
      if reg < 16 then some (setV cpu reg ((cpu.V reg + value) % 256)) else none

/-- The body of the inner loop of `case DRAW` for one bit position `col` of
the sprite byte `pixel`: when bit `0x80 >> col` is set, `screen_pixel` points
at `display[(y + row) % SCREEN_HEIGHT][(x + col) % SCREEN_WIDTH]`; a cell equal
to 1 sets `V[0xF]`, and the cell is XORed with 1. -/
def drawBit (x y row pixel col : Nat) (s : CPU × Display) : CPU × Display :=
  if pixel &&& (0x80 >>> col) ≠ 0 then
    let py := (y + row) % SCREEN_HEIGHT
    let px := (x + col) % SCREEN_WIDTH
    let cpu' := if s.2 py px = 1 then setV s.1 0xF 1 else s.1
    (cpu', setCell s.2 py px ((s.2 py px ^^^ 1) % 256))
  else s

/-- The body of the outer loop of `case DRAW` for sprite row `row`:
`pixel = cpu->memory[cpu->I + row]`, then the loop over the 8 bit positions.
An address outside `memory[MEM]` is an out-of-bounds read. -/
def drawRow (x y row : Nat) (s : CPU × Display) : Option (CPU × Display) :=
  if s.1.I + row < MEM then
    some (forLoop (drawBit x y row (s.1.memory (s.1.I + row))) 8 s)
  else none

/-- The sprite-drawing routine of `case DRAW` for a sprite of `height` rows:
`x = V[0]`, `y = V[1]`, `V[0xF] = 0`, then the loop over the rows. -/
def drawSprite (height : Nat) (cpu : CPU) (display : Display) :
    Option (CPU × Display) :=
  let x := cpu.V 0
  let y := cpu.V 1
  forLoopM (drawRow x y) height (setV cpu 0xF 0, display)

/-- `case DRAW`: `uint8_t height = opcode & 0x000F;` followed by the
sprite-drawing routine. -/
def caseDRAW (opcode : Nat) (cpu : CPU) (display : Display) :
    Option (CPU × Display) :=
  drawSprite ((opcode &&& 0x000F) % 256) cpu display

/-! ## `decode` -/

/-- The function `decode`.  Its parameter is declared `uint8_t opcode`, so the
argument is converted to 8 bits on entry; the `switch` then compares that value
with the `enum opcodes` constants.  `printf` and `render_display` do not change
the machine state. -/
def decode (opcode : Nat) (cpu : CPU) (display : Display) :
    Option (CPU × Display) :=
  let op := opcode % 256
  if op = CLS then some (cpu, caseCLS display)
  else if op = JUMP then (caseJUMP cpu).map (fun c => (c, display))
  else if op = SET_VX then (caseSET_VX cpu).map (fun c => (c, display))
  else if op = ADD_VX then (caseADD_VX cpu).map (fun c => (c, display))
  else if op = SET_I then some (cpu, display)
  else if op = DRAW then caseDRAW op cpu display
  else some (cpu, display)

/-! ## `main`: machine construction and the driver loop -/

/-- The zero-filled machine `CPU cpu = {0};`. -/
def zeroCPU : CPU :=
  { memory := fun _ => 0, V := fun _ => 0, I := 0, PC := 0,
    delay_timer := 0, sound_timer := 0, stack := fun _ => 0, SP := 0 }

/-- The zero-filled framebuffer `display[..][..] = {0};`. -/
def zeroDisplay : Display := fun _ _ => 0

/-- The assignment `cpu.memory[i] = v`. -/
def setMem (cpu : CPU) (i v : Nat) : CPU :=
  { cpu with memory := fun j => if j = i then v else cpu.memory j }

/-- The font loop of `main`: `cpu.memory[i] = font_data[i]` for every
`i < sizeof(font_data)`. -/
def installFont (cpu : CPU) : CPU :=
  forLoop (fun i c => setMem c i (font_data.getD i 0)) font_data.length cpu

/-- The call `fread(&cpu.memory[0x200], 1, MEM - 0x200, rom)` on a file holding
the bytes `rom`: the first `min (length rom) (MEM - 0x200)` bytes are stored
from address `0x200` on; the count of bytes stored is returned with the state. -/
def readRom (rom : List Nat) (cpu : CPU) : CPU × Nat :=
  let n := min rom.length (MEM - 0x200)
  ({ cpu with memory := fun j =>
      if 0x200 ≤ j ∧ j < 0x200 + n then rom.getD (j - 0x200) 0
      else cpu.memory j }, n)

/-- The start of `main` up to the driver loop, for a ROM file that could be
opened and holds the bytes `rom`: zero-filled display and CPU, font install,
ROM read, failure when no byte was read, then `PC = 0x200` and `I = 0x200`. -/
def loadMachine (rom : List Nat) : Option (CPU × Display) :=
  let r := readRom rom (installFont zeroCPU)
  if r.2 = 0 then none
  else some ({ r.1 with PC := 0x200, I := 0x200 }, zeroDisplay)

/-- One iteration of the driver loop `while (running)`:
`decode(cpu.memory[cpu.PC], &cpu, display);`.  Rendering, event polling and
the delay do not change the machine state. -/
def step (s : CPU × Display) : Option (CPU × Display) :=
  if s.1.PC < MEM then decode (s.1.memory s.1.PC) s.1 s.2 else none

/-- The driver loop run for `n` iterations. -/
def run (n : Nat) (s : CPU × Display) : Option (CPU × Display) :=
  forLoopM (fun _ t => step t) n s

/-! ## Predicates and machines used in the statements -/

/-- XOR with 1 stored into a `uint8_t` cell. -/
def flipCell (v : Nat) : Nat := (v ^^^ 1) % 256

/-- Row `row`, bit `col` of the sprite at `cpu.I` is set and lands on the cell
`(r, c)` when drawn at `(V0, V1)`. -/
def BitAt (cpu : CPU) (row col r c : Nat) : Prop :=
  cpu.memory (cpu.I + row) &&& (0x80 >>> col) ≠ 0 ∧
    r = (cpu.V 1 + row) % 32 ∧ c = (cpu.V 0 + col) % 64

/-- Some set bit of the first `n` sprite rows lands on the cell `(r, c)`. -/
def Hit (cpu : CPU) (n r c : Nat) : Prop :=
  ∃ row, row < n ∧ ∃ col, col < 8 ∧ BitAt cpu row col r c

/-- Every cell of the 32 x 64 display is 0 or 1. -/
def BinaryDisplay (display : Display) : Prop :=
  ∀ y, y < SCREEN_HEIGHT → ∀ x, x < SCREEN_WIDTH → display y x = 0 ∨ display y x = 1

/-- Some set bit of the first `n` sprite rows of the sprite at `cpu.I`, drawn
at `(V0, V1)`, lands on a cell of `display` that holds 1. -/
def Collides (cpu : CPU) (display : Display) (n : Nat) : Prop :=
  ∃ row, row < n ∧ ∃ col, col < 8 ∧
    cpu.memory (cpu.I + row) &&& (0x80 >>> col) ≠ 0 ∧
    display ((cpu.V 1 + row) % 32) ((cpu.V 0 + col) % 64) = 1

/-- The framebuffers the engine operations can produce from the zero-filled
one: any `decode`, the clear-screen case and the sprite-drawing routine, each
on any CPU state. -/
inductive ReachableDisplay : Display → Prop
  | initial : ReachableDisplay zeroDisplay
  | byDecode (opcode : Nat) (cpu cpu' : CPU) (d d' : Display) :
      ReachableDisplay d → decode opcode cpu d = some (cpu', d') → ReachableDisplay d'
  | byClear (d : Display) : ReachableDisplay d → ReachableDisplay (caseCLS d)
  | byDraw (n : Nat) (cpu cpu' : CPU) (d d' : Display) :
      ReachableDisplay d → drawSprite n cpu d = some (cpu', d') → ReachableDisplay d'

/-- The sprite read of one row as the specification's data model words it
("addresses always taken modulo capacity"): row `row` reads
`memory[(I + row) % MEM]`.  It follows the specification, not the source, and
is compared with `drawRow`. -/
def specDrawRow (x y row : Nat) (s : CPU × Display) : Option (CPU × Display) :=
  some (forLoop (drawBit x y row (s.1.memory ((s.1.I + row) % MEM))) 8 s)

/-- The sprite-drawing routine with the specification's sprite read
`specDrawRow` in place of `drawRow`. -/
def specDrawSprite (height : Nat) (cpu : CPU) (display : Display) :
    Option (CPU × Display) :=
  forLoopM (specDrawRow (cpu.V 0) (cpu.V 1)) height (setV cpu 0xF 0, display)

/-- A machine with the font installed and `I = 4095`, the last address of
memory; `memory[0] = 0xF0` and `memory[4095] = 0`. -/
def edgeCPU : CPU :=
  { installFont zeroCPU with I := 4095 }

/-- A framebuffer with the single cell `(0, 0)` set to 1. -/
def litDisplay : Display :=
  setCell zeroDisplay 0 0 1

/-- A machine used to instantiate the drawing theorems: the font is installed,
`I = 0` points at the glyph "0" (`F0 90 90 90 F0`), and the coordinates are
`V0 = 63`, `V1 = 30`, so the glyph wraps around both screen edges. -/
def glyphCPU : CPU :=
  setV (setV (installFont zeroCPU) 0 63) 1 30

/-- A machine with the one-row sprite `0x80` at `I = 0` and the coordinates
`V0 = 32`, `V1 = 0`. -/
def rightHalfCPU : CPU :=
  setV (setMem zeroCPU 0 0x80) 0 32

/-- The image of the end-to-end scenario in the standard CHIP-8 encoding:
clear screen, `V0 = 5`, `V1 = 3`, `I = 0x20A`, draw one row at `(V0, V1)`, and
the sprite byte `0xF0` at `0x20A`. -/
def scenarioRom : List Nat :=
  [0x00, 0xE0, 0x60, 0x05, 0x61, 0x03, 0xA2, 0x0A, 0xD0, 0x11, 0xF0]

/-! ## Clear screen -/

theorem forLoop_clear_row (display : Display) (y n y' x' : Nat) :
    forLoop (fun x d' => setCell d' y x 0) n display y' x' =
      if y' = y ∧ x' < n then 0 else display y' x' := by
  induction n with
  | zero => simp [forLoop]
  | succ k ih =>
    simp only [forLoop, setCell, ih]
    by_cases hy : y' = y
    · by_cases hx : x' = k
      · simp [hy, hx]
      · by_cases hlt : x' < k
        · have : x' < k + 1 := by omega
          simp [hy, hx, hlt, this]
        · have : ¬ x' < k + 1 := by omega
          simp [hy, hx, hlt, this]
    · simp [hy]

theorem forLoop_clear_rows (display : Display) (w n y' x' : Nat) :
    forLoop (fun y d => forLoop (fun x d' => setCell d' y x 0) w d) n display y' x' =
      if y' < n ∧ x' < w then 0 else display y' x' := by
  induction n with
  | zero => simp [forLoop]
  | succ k ih =>
    simp only [forLoop, forLoop_clear_row, ih]
    by_cases hy : y' = k
    · by_cases hx : x' < w
      · have : y' < k + 1 := by omega
        simp [hy, hx]
      · simp [hx]
    · by_cases hlt : y' < k
      · have : y' < k + 1 := by omega
        simp [hy, hlt, this]
      · have : ¬ y' < k + 1 := by omega
        simp [hy, hlt, this]

theorem caseCLS_cell (display : Display) (y x : Nat) :
    caseCLS display y x =
      if y < SCREEN_HEIGHT ∧ x < SCREEN_WIDTH then 0 else display y x := by
  unfold caseCLS
  exact forLoop_clear_rows display SCREEN_WIDTH SCREEN_HEIGHT y x

/-- C2: for every CPU state and every framebuffer content, `decode` run on the
clear-screen opcode `CLS = 0x00E0` returns normally, leaves the CPU as it was,
and every one of the 32 x 64 framebuffer cells is 0 afterwards. -/
theorem decode_cls_clears (cpu : CPU) (display : Display) :
    ∃ display', decode CLS cpu display = some (cpu, display') ∧
      ∀ y x, y < 32 → x < 64 → display' y x = 0 := by
  refine ⟨caseCLS display, ?_, ?_⟩
  · simp [decode, CLS]
  · intro y x hy hx
    rw [caseCLS_cell]
    simp [SCREEN_HEIGHT, SCREEN_WIDTH, hy, hx]

/-! ## Dispatch on an 8-bit opcode -/

theorem decode_of_ne_cls (opcode : Nat) (cpu : CPU) (display : Display)
    (h : opcode % 256 ≠ CLS) : decode opcode cpu display = some (cpu, display) := by
  have hlt : opcode % 256 < 256 := Nat.mod_lt _ (by decide)
  have h1 : opcode % 256 ≠ JUMP := by unfold JUMP; omega
  have h2 : opcode % 256 ≠ SET_VX := by unfold SET_VX; omega
  have h3 : opcode % 256 ≠ ADD_VX := by unfold ADD_VX; omega
  have h4 : opcode % 256 ≠ DRAW := by unfold DRAW; omega
  simp [decode, h, h1, h2, h3, h4]

/-- C3, counterexample: the opcode value `0x1E0` equals none of the six
supported family values, yet `decode` run on it clears the framebuffer: the
cell `(0, 0)` held 1 before and holds 0 afterwards, because the 8-bit parameter
receives `0xE0`. -/
theorem decode_wide_opcode_clears :
    0x1E0 ≠ CLS ∧ 0x1E0 ≠ JUMP ∧ 0x1E0 ≠ SET_VX ∧ 0x1E0 ≠ ADD_VX ∧ 0x1E0 ≠ SET_I ∧
      0x1E0 ≠ DRAW ∧ litDisplay 0 0 = 1 ∧
      (decode 0x1E0 zeroCPU litDisplay).map (fun p => p.2 0 0) = some 0 := by
  refine ⟨by decide, by decide, by decide, by decide, by decide, by decide, by decide, ?_⟩
  have h : decode 0x1E0 zeroCPU litDisplay = some (zeroCPU, caseCLS litDisplay) := by
    simp [decode, CLS]
  rw [h]
  simp [caseCLS_cell, SCREEN_HEIGHT, SCREEN_WIDTH]

/-- C3, amended: for every machine state and every opcode value given to
`decode` whose low byte, the value the 8-bit parameter receives, is not the
clear-screen value `0xE0` (no other family value fits in 8 bits), `decode`
returns normally with the whole CPU (V0-VF, I, PC, SP, timers, stack, memory)
and the whole framebuffer unchanged. -/
theorem decode_unknown_noop (opcode : Nat) (cpu : CPU) (display : Display)
    (hlow : opcode % 256 ≠ CLS) :
    decode opcode cpu display = some (cpu, display) := by
  have hlt : opcode % 256 < 256 := Nat.mod_lt _ (by decide)
  have h1 : opcode % 256 ≠ JUMP := by unfold JUMP; omega
  have h2 : opcode % 256 ≠ SET_VX := by unfold SET_VX; omega
  have h3 : opcode % 256 ≠ ADD_VX := by unfold ADD_VX; omega
  have h4 : opcode % 256 ≠ DRAW := by unfold DRAW; omega
  simp [decode, hlow, h1, h2, h3, h4]

/-- Witness for C3 as amended: the specification's example `0xFFFF` on the
zero-filled machine. -/
theorem decode_unknown_noop_witness :
    decode 0xFFFF zeroCPU zeroDisplay = some (zeroCPU, zeroDisplay) :=
  decode_unknown_noop 0xFFFF zeroCPU zeroDisplay (by decide)

/-! ## The sprite-drawing routine: what it does to the framebuffer -/

theorem flipCell_flipCell (v : Nat) (h : v < 256) : flipCell (flipCell v) = v := by
  have h1 : v ^^^ 1 < 2 ^ 8 := Nat.xor_lt_two_pow (by simpa using h) (by decide)
  have h2 : v ^^^ 1 < 256 := by simpa using h1
  unfold flipCell
  rw [Nat.mod_eq_of_lt h2, Nat.xor_assoc, Nat.xor_self, Nat.xor_zero, Nat.mod_eq_of_lt h]

theorem setV_setV (cpu : CPU) (a b : Nat) : setV (setV cpu 0xF a) 0xF b = setV cpu 0xF b := by
  unfold setV
  congr 1
  funext j
  by_cases h : j = 0xF <;> simp [h]

theorem setV_self (cpu : CPU) : setV cpu 0xF (cpu.V 0xF) = cpu := by
  unfold setV
  cases cpu
  congr 1
  funext j
  by_cases h : j = 0xF <;> simp [h]

/-- One bit step changes the CPU in `V[0xF]` only. -/
theorem drawBit_cpu (x y row pixel col : Nat) (s : CPU × Display) :
    ∃ vf, (drawBit x y row pixel col s).1 = setV s.1 0xF vf := by
  unfold drawBit
  by_cases hb : pixel &&& (0x80 >>> col) ≠ 0
  · by_cases h1 : s.2 ((y + row) % SCREEN_HEIGHT) ((x + col) % SCREEN_WIDTH) = 1
    · exact ⟨1, by simp [hb, h1]⟩
    · exact ⟨s.1.V 0xF, by simp [hb, h1, setV_self]⟩
  · exact ⟨s.1.V 0xF, by simp [hb, setV_self]⟩

/-- One bit step on the framebuffer: the target cell is flipped when the bit
is set, every other cell is kept. -/
theorem drawBit_display (x y row pixel col : Nat) (s : CPU × Display) (r c : Nat) :
    (drawBit x y row pixel col s).2 r c =
      if pixel &&& (0x80 >>> col) ≠ 0 ∧ r = (y + row) % 32 ∧ c = (x + col) % 64
      then flipCell (s.2 r c) else s.2 r c := by
  unfold drawBit
  by_cases hb : pixel &&& (0x80 >>> col) ≠ 0
  · by_cases hrc : r = (y + row) % 32 ∧ c = (x + col) % 64
    · obtain ⟨hr, hc⟩ := hrc
      simp [hb, setCell, SCREEN_HEIGHT, SCREEN_WIDTH, hr, hc, flipCell]
    · have : ¬ (r = (y + row) % 32 ∧ c = (x + col) % 64) := hrc
      simp [hb, setCell, SCREEN_HEIGHT, SCREEN_WIDTH, hrc]
  · simp [hb]

/-- The inner loop over the first `k` bit positions of one sprite byte. -/
theorem forLoop_drawBit (x y row pixel : Nat) (s : CPU × Display) (k : Nat) (hk : k ≤ 64) :
    (∃ vf, (forLoop (drawBit x y row pixel) k s).1 = setV s.1 0xF vf) ∧
    ∀ r c,
      ((∃ col, col < k ∧ pixel &&& (0x80 >>> col) ≠ 0 ∧
          r = (y + row) % 32 ∧ c = (x + col) % 64) →
        (forLoop (drawBit x y row pixel) k s).2 r c = flipCell (s.2 r c)) ∧
      ((¬ ∃ col, col < k ∧ pixel &&& (0x80 >>> col) ≠ 0 ∧
          r = (y + row) % 32 ∧ c = (x + col) % 64) →
        (forLoop (drawBit x y row pixel) k s).2 r c = s.2 r c) := by
  induction k with
  | zero =>
    refine ⟨⟨s.1.V 0xF, by simp [forLoop, setV_self]⟩, ?_⟩
    intro r c
    constructor
    · rintro ⟨col, hcol, _⟩
      omega
    · intro _
      rfl
  | succ k ih =>
    obtain ⟨⟨vf, hvf⟩, ihd⟩ := ih (by omega)
    constructor
    · obtain ⟨vf', hvf'⟩ := drawBit_cpu x y row pixel k (forLoop (drawBit x y row pixel) k s)
      exact ⟨vf', by simp only [forLoop]; rw [hvf', hvf, setV_setV]⟩
    · intro r c
      simp only [forLoop]
      rw [drawBit_display]
      by_cases hnew : pixel &&& (0x80 >>> k) ≠ 0 ∧ r = (y + row) % 32 ∧ c = (x + k) % 64
      · rw [if_pos hnew]
        have hold : ¬ ∃ col, col < k ∧ pixel &&& (0x80 >>> col) ≠ 0 ∧
            r = (y + row) % 32 ∧ c = (x + col) % 64 := by
          rintro ⟨col, hcol, _, _, hc⟩
          have := hnew.2.2
          omega
        rw [(ihd r c).2 hold]
        constructor
        · intro _
          rfl
        · intro hno
          exact absurd ⟨k, by omega, hnew⟩ hno
      · rw [if_neg hnew]
        constructor
        · rintro ⟨col, hcol, hbit⟩
          have hlt : col < k := by
            rcases Nat.lt_or_ge col k with h | h
            · exact h
            · have : col = k := by omega
              subst this
              exact absurd hbit hnew
          exact (ihd r c).1 ⟨col, hlt, hbit⟩
        · intro hno
          apply (ihd r c).2
          rintro ⟨col, hcol, hbit⟩
          exact hno ⟨col, by omega, hbit⟩

/-- The outer loop over the first `n` sprite rows, started on `(cpu, display)`
with coordinates `(x, y)`: it returns, the CPU differs in `V[0xF]` at most, and
a cell is flipped exactly when a set sprite bit lands on it. -/
theorem forLoopM_drawRow (x y : Nat) (cpu : CPU) (display : Display) (n : Nat)
    (hn : n ≤ 32) (hmem : cpu.I + n ≤ MEM) :
    ∃ vf d', forLoopM (drawRow x y) n (cpu, display) = some (setV cpu 0xF vf, d') ∧
      ∀ r c,
        ((∃ row, row < n ∧ ∃ col, col < 8 ∧
            cpu.memory (cpu.I + row) &&& (0x80 >>> col) ≠ 0 ∧
            r = (y + row) % 32 ∧ c = (x + col) % 64) →
          d' r c = flipCell (display r c)) ∧
        ((¬ ∃ row, row < n ∧ ∃ col, col < 8 ∧
            cpu.memory (cpu.I + row) &&& (0x80 >>> col) ≠ 0 ∧
            r = (y + row) % 32 ∧ c = (x + col) % 64) →
          d' r c = display r c) := by
  induction n with
  | zero =>
    refine ⟨cpu.V 0xF, display, by simp [forLoopM, setV_self], ?_⟩
    intro r c
    constructor
    · rintro ⟨row, hrow, _⟩
      omega
    · intro _
      rfl
  | succ k ih =>
    obtain ⟨vf, dk, hk, ihd⟩ := ih (by omega) (by omega)
    have hI : (setV cpu 0xF vf).I + k < MEM := by
      show cpu.I + k < MEM
      omega
    obtain ⟨⟨vf', hvf'⟩, hrow⟩ :=
      forLoop_drawBit x y k (cpu.memory (cpu.I + k)) (setV cpu 0xF vf, dk) 8 (by omega)
    refine ⟨vf', (forLoop (drawBit x y k (cpu.memory (cpu.I + k))) 8 (setV cpu 0xF vf, dk)).2,
      ?_, ?_⟩
    · simp only [forLoopM, hk, drawRow, if_pos hI]
      have hm : (setV cpu 0xF vf, dk).1.memory ((setV cpu 0xF vf, dk).1.I + k) =
          cpu.memory (cpu.I + k) := rfl
      rw [hm]
      rw [setV_setV] at hvf'
      rw [← hvf']
    · intro r c
      by_cases hnew : ∃ col, col < 8 ∧ cpu.memory (cpu.I + k) &&& (0x80 >>> col) ≠ 0 ∧
          r = (y + k) % 32 ∧ c = (x + col) % 64
      · rw [(hrow r c).1 hnew]
        have hold : ¬ ∃ row, row < k ∧ ∃ col, col < 8 ∧
            cpu.memory (cpu.I + row) &&& (0x80 >>> col) ≠ 0 ∧
            r = (y + row) % 32 ∧ c = (x + col) % 64 := by
          rintro ⟨row, hrow', col, _, _, hr, _⟩
          obtain ⟨col', _, _, hr', _⟩ := hnew
          omega
        have hkeep : dk r c = display r c := (ihd r c).2 hold
        have hcell : (setV cpu 0xF vf, dk).2 r c = display r c := hkeep
        rw [hcell]
        constructor
        · intro _
          rfl
        · intro hno
          obtain ⟨col, hcol, hbit⟩ := hnew
          exact absurd ⟨k, by omega, col, hcol, hbit⟩ hno
      · rw [(hrow r c).2 hnew]
        show (_ → dk r c = _) ∧ (_ → dk r c = _)
        constructor
        · rintro ⟨row, hrow', col, hcol, hbit⟩
          have hlt : row < k := by
            rcases Nat.lt_or_ge row k with h | h
            · exact h
            · have : row = k := by omega
              subst this
              exact absurd ⟨col, hcol, hbit⟩ hnew
          exact (ihd r c).1 ⟨row, hlt, col, hcol, hbit⟩
        · intro hno
          apply (ihd r c).2
          rintro ⟨row, hrow', rest⟩
          exact hno ⟨row, by omega, rest⟩

/-- The sprite-drawing routine in closed form: for a height of at most 32 rows
whose sprite bytes lie inside memory, the routine returns, the CPU differs from
the one before in `V[0xF]` at most, every cell a set sprite bit lands on is
flipped once, and every other cell is kept. -/
theorem drawSprite_cells (n : Nat) (cpu : CPU) (display : Display)
    (hn : n ≤ 32) (hmem : cpu.I + n ≤ MEM) :
    ∃ vf d', drawSprite n cpu display = some (setV cpu 0xF vf, d') ∧
      ∀ r c, (Hit cpu n r c → d' r c = flipCell (display r c)) ∧
        (¬ Hit cpu n r c → d' r c = display r c) := by
  obtain ⟨vf, d', hrun, hcells⟩ :=
    forLoopM_drawRow (cpu.V 0) (cpu.V 1) (setV cpu 0xF 0) display n hn hmem
  refine ⟨vf, d', ?_, ?_⟩
  · unfold drawSprite
    rw [hrun, setV_setV]
  · exact hcells

/-- Drawing changes neither the sprite bytes nor the coordinates, so the set of
cells a sprite lands on is the same after a change of `V[0xF]`. -/
theorem Hit_setV (cpu : CPU) (vf n r c : Nat) :
    Hit (setV cpu 0xF vf) n r c ↔ Hit cpu n r c := Iff.rfl

/-! ## Double draw -/

/-- C1: for every CPU state whose sprite bytes `memory[I .. I + n)` lie inside
memory, every framebuffer content (of 8-bit cells) and every height `n < 16`,
running the sprite-drawing routine twice in succession returns both times, and
every framebuffer cell after the second run equals its value before the
first. -/
theorem double_draw_restores (n : Nat) (cpu : CPU) (display : Display)
    (hn : n < 16) (hmem : cpu.I + n ≤ MEM) (hbyte : ByteDisplay display) :
    ∃ cpu1 d1 cpu2 d2, drawSprite n cpu display = some (cpu1, d1) ∧
      drawSprite n cpu1 d1 = some (cpu2, d2) ∧ ∀ y x, d2 y x = display y x := by
  obtain ⟨vf1, d1, h1, hc1⟩ := drawSprite_cells n cpu display (by omega) hmem
  obtain ⟨vf2, d2, h2, hc2⟩ :=
    drawSprite_cells n (setV cpu 0xF vf1) d1 (by omega) hmem
  refine ⟨setV cpu 0xF vf1, d1, _, d2, h1, h2, ?_⟩
  intro y x
  by_cases hit : Hit cpu n y x
  · rw [(hc2 y x).1 ((Hit_setV cpu vf1 n y x).2 hit), (hc1 y x).1 hit]
    obtain ⟨row, _, col, _, _, hy, hx⟩ := hit
    exact flipCell_flipCell _
      (hbyte y (by rw [hy]; exact Nat.mod_lt _ (by decide))
        x (by rw [hx]; exact Nat.mod_lt _ (by decide)))
  · rw [(hc2 y x).2 (fun h => hit ((Hit_setV cpu vf1 n y x).1 h)), (hc1 y x).2 hit]

/-- Witness for C1: the 5-row glyph "0" drawn twice at `(63, 30)` on the
zero-filled framebuffer. -/
theorem double_draw_restores_witness :
    ∃ cpu1 d1 cpu2 d2, drawSprite 5 glyphCPU zeroDisplay = some (cpu1, d1) ∧
      drawSprite 5 cpu1 d1 = some (cpu2, d2) ∧ ∀ y x, d2 y x = zeroDisplay y x :=
  double_draw_restores 5 glyphCPU zeroDisplay (by decide) (by decide)
    (fun _ _ _ _ => show (0 : Nat) < 256 by decide)

/-! ## Target cells of a sprite bit -/

/-- C7: in the sprite-drawing routine (height `n < 16`, sprite bytes inside
memory) with `X = V0` and `Y = V1`, the routine returns and (a) no cell with a
column index of 64 or more is changed, (b) a set bit `col` of sprite row `row`
flips the cell in column `(X + col) % 64`, which is a column of the 64-column
grid, of row `(Y + row) % 32`, and (c) with `X = 63` bit 0 flips column 63 and
the bits 1..7 flip the columns 0..6 of that same row. -/
theorem draw_wraps_horizontally (n : Nat) (cpu : CPU) (display : Display)
    (hn : n < 16) (hmem : cpu.I + n ≤ MEM) :
    ∃ cpu' d', drawSprite n cpu display = some (cpu', d') ∧
      (∀ r c, 64 ≤ c → d' r c = display r c) ∧
      (∀ row col, row < n → col < 8 →
        cpu.memory (cpu.I + row) &&& (0x80 >>> col) ≠ 0 →
        (cpu.V 0 + col) % 64 < 64 ∧
        d' ((cpu.V 1 + row) % 32) ((cpu.V 0 + col) % 64) =
          flipCell (display ((cpu.V 1 + row) % 32) ((cpu.V 0 + col) % 64))) ∧
      (cpu.V 0 = 63 → ∀ row col, row < n → col < 8 →
        cpu.memory (cpu.I + row) &&& (0x80 >>> col) ≠ 0 →
        d' ((cpu.V 1 + row) % 32) (if col = 0 then 63 else col - 1) =
          flipCell (display ((cpu.V 1 + row) % 32) (if col = 0 then 63 else col - 1))) := by
  obtain ⟨vf, d', hrun, hcells⟩ := drawSprite_cells n cpu display (by omega) hmem
  have hflip : ∀ row col, row < n → col < 8 →
      cpu.memory (cpu.I + row) &&& (0x80 >>> col) ≠ 0 →
      d' ((cpu.V 1 + row) % 32) ((cpu.V 0 + col) % 64) =
        flipCell (display ((cpu.V 1 + row) % 32) ((cpu.V 0 + col) % 64)) := by
    intro row col hrow hcol hbit
    exact (hcells _ _).1 ⟨row, hrow, col, hcol, hbit, rfl, rfl⟩
  refine ⟨setV cpu 0xF vf, d', hrun, ?_, ?_, ?_⟩
  · intro r c hc
    apply (hcells r c).2
    rintro ⟨row, _, col, _, _, _, hcol⟩
    omega
  · intro row col hrow hcol hbit
    exact ⟨Nat.mod_lt _ (by decide), hflip row col hrow hcol hbit⟩
  · intro hx row col hrow hcol hbit
    have hc : (cpu.V 0 + col) % 64 = if col = 0 then 63 else col - 1 := by
      rw [hx]
      split <;> omega
    rw [← hc]
    exact hflip row col hrow hcol hbit

/-- Witness for C7: the glyph "0" drawn at `X = 63`, `Y = 30`. -/
theorem draw_wraps_horizontally_witness :
    ∃ cpu' d', drawSprite 5 glyphCPU zeroDisplay = some (cpu', d') ∧
      (∀ r c, 64 ≤ c → d' r c = zeroDisplay r c) ∧
      (∀ row col, row < 5 → col < 8 →
        glyphCPU.memory (glyphCPU.I + row) &&& (0x80 >>> col) ≠ 0 →
        (glyphCPU.V 0 + col) % 64 < 64 ∧
        d' ((glyphCPU.V 1 + row) % 32) ((glyphCPU.V 0 + col) % 64) =
          flipCell (zeroDisplay ((glyphCPU.V 1 + row) % 32) ((glyphCPU.V 0 + col) % 64))) ∧
      (glyphCPU.V 0 = 63 → ∀ row col, row < 5 → col < 8 →
        glyphCPU.memory (glyphCPU.I + row) &&& (0x80 >>> col) ≠ 0 →
        d' ((glyphCPU.V 1 + row) % 32) (if col = 0 then 63 else col - 1) =
          flipCell (zeroDisplay ((glyphCPU.V 1 + row) % 32)
            (if col = 0 then 63 else col - 1))) :=
  draw_wraps_horizontally 5 glyphCPU zeroDisplay (by decide) (by decide)

/-- C8, counterexample: with `X = V0 = 32`, `Y = V1 = 0` and bit 0 of sprite
row 0 set, the cell of row `(Y + 0) % 32` and column `(X + 0) % 32 = 0` still
holds its old value 0 after the draw; the cell that holds 1 is the one in
column 32. -/
theorem draw_column_mod32_fails :
    rightHalfCPU.memory (rightHalfCPU.I + 0) &&& (0x80 >>> 0) ≠ 0 ∧
      (drawSprite 1 rightHalfCPU zeroDisplay).map
        (fun p => (p.2 ((rightHalfCPU.V 1 + 0) % 32) ((rightHalfCPU.V 0 + 0) % 32),
          p.2 0 32)) = some (0, 1) := by
  decide

/-- C8, amended: for `X = V0`, `Y = V1`, every row `row < n` (`n < 16`, sprite
bytes inside memory) and every bit position `col < 8`, most-significant bit
first, a set bit `col` of the sprite byte of row `row` toggles the framebuffer
cell at row `(Y + row) % 32` and column `(X + col) % 64`: after the routine
that cell holds its old value XOR 1. -/
theorem draw_toggles_target_cell (n : Nat) (cpu : CPU) (display : Display)
    (row col : Nat) (hn : n < 16) (hmem : cpu.I + n ≤ MEM)
    (hbyte : ByteDisplay display) (hrow : row < n) (hcol : col < 8)
    (hbit : cpu.memory (cpu.I + row) &&& (0x80 >>> col) ≠ 0) :
    ∃ cpu' d', drawSprite n cpu display = some (cpu', d') ∧
      d' ((cpu.V 1 + row) % 32) ((cpu.V 0 + col) % 64) =
        display ((cpu.V 1 + row) % 32) ((cpu.V 0 + col) % 64) ^^^ 1 := by
  obtain ⟨vf, d', hrun, hcells⟩ := drawSprite_cells n cpu display (by omega) hmem
  refine ⟨setV cpu 0xF vf, d', hrun, ?_⟩
  rw [(hcells _ _).1 ⟨row, hrow, col, hcol, hbit, rfl, rfl⟩]
  have h := hbyte ((cpu.V 1 + row) % 32) (Nat.mod_lt _ (by decide))
    ((cpu.V 0 + col) % 64) (Nat.mod_lt _ (by decide))
  have h1 : display ((cpu.V 1 + row) % 32) ((cpu.V 0 + col) % 64) ^^^ 1 < 2 ^ 8 :=
    Nat.xor_lt_two_pow (by simpa using h) (by decide)
  exact Nat.mod_eq_of_lt (by simpa using h1)

/-- Witness for C8 as amended: row 0, bit 0 of the sprite `0x80` drawn at
`X = 32`, `Y = 0` toggles the cell of row 0 and column 32. -/
theorem draw_toggles_target_cell_witness :
    ∃ cpu' d', drawSprite 1 rightHalfCPU zeroDisplay = some (cpu', d') ∧
      d' ((rightHalfCPU.V 1 + 0) % 32) ((rightHalfCPU.V 0 + 0) % 64) =
        zeroDisplay ((rightHalfCPU.V 1 + 0) % 32) ((rightHalfCPU.V 0 + 0) % 64) ^^^ 1 :=
  draw_toggles_target_cell 1 rightHalfCPU zeroDisplay 0 0 (by decide) (by decide)
    (fun _ _ _ _ => show (0 : Nat) < 256 by decide) (by decide) (by decide) (by decide)

/-! ## The driver loop on a loaded machine -/

theorem step_of_ne_cls (s : CPU × Display) (hpc : s.1.PC < MEM)
    (h : s.1.memory s.1.PC % 256 ≠ CLS) : step s = some s := by
  unfold step
  rw [if_pos hpc, decode_of_ne_cls _ _ _ h]

theorem step_of_cls (s : CPU × Display) (hpc : s.1.PC < MEM)
    (h : s.1.memory s.1.PC % 256 = CLS) : step s = some (s.1, caseCLS s.2) := by
  unfold step
  rw [if_pos hpc]
  simp [decode, h]

theorem caseCLS_zeroDisplay : caseCLS zeroDisplay = zeroDisplay := by
  funext y x
  rw [caseCLS_cell]
  simp [zeroDisplay]

/-- On a zero-filled framebuffer one driver iteration changes nothing. -/
theorem step_zeroDisplay (cpu : CPU) (hpc : cpu.PC < MEM) :
    step (cpu, zeroDisplay) = some (cpu, zeroDisplay) := by
  by_cases h : cpu.memory cpu.PC % 256 = CLS
  · rw [step_of_cls _ hpc h, caseCLS_zeroDisplay]
  · exact step_of_ne_cls _ hpc h

/-- On a zero-filled framebuffer no number of driver iterations changes
anything. -/
theorem run_zeroDisplay (cpu : CPU) (hpc : cpu.PC < MEM) (n : Nat) :
    run n (cpu, zeroDisplay) = some (cpu, zeroDisplay) := by
  induction n with
  | zero => rfl
  | succ k ih =>
    unfold run at ih ⊢
    simp only [forLoopM, ih]
    exact step_zeroDisplay cpu hpc

theorem forLoop_setMem_V (f : Nat → Nat) (k : Nat) (cpu : CPU) :
    (forLoop (fun i c => setMem c i (f i)) k cpu).V = cpu.V := by
  induction k with
  | zero => rfl
  | succ k ih => simpa [forLoop, setMem] using ih

theorem installFont_V (cpu : CPU) : (installFont cpu).V = cpu.V :=
  forLoop_setMem_V _ _ cpu

/-- What `main` hands to the driver loop: a zero-filled framebuffer,
`PC = 0x200` and zero-filled V registers. -/
theorem loadMachine_some (rom : List Nat) (s : CPU × Display)
    (hload : loadMachine rom = some s) :
    s.2 = zeroDisplay ∧ s.1.PC = 0x200 ∧ ∀ r, s.1.V r = 0 := by
  unfold loadMachine at hload
  by_cases h0 : (readRom rom (installFont zeroCPU)).2 = 0
  · simp [h0] at hload
  · simp only [if_neg h0, Option.some.injEq] at hload
    subst hload
    refine ⟨rfl, rfl, ?_⟩
    intro r
    show (installFont zeroCPU).V r = 0
    rw [installFont_V]
    rfl

/-! ## Instructions the dispatch never reaches -/

/-- C4, evaluated at the failing input `r = 1`, `v = 5`: on the machine loaded
from the image `60 01 05` (opcode byte, register operand, value operand) one
driver iteration returns with `V[1]` still 0, and the body of `case SET_VX`
run on that machine reads `0x60` for both operands and stores outside `V[16]`.
The images `61 05` and `60 00 01 05` leave `V[1] = 0` as well. -/
theorem set_register_step_keeps_V :
    ((loadMachine [0x60, 0x01, 0x05]).bind step).map (fun s => s.1.V 1) = some 0 ∧
    ((loadMachine [0x60, 0x01, 0x05]).bind (fun s => caseSET_VX s.1)).map
        (fun c => c.V 1) = none ∧
    ((loadMachine [0x61, 0x05]).bind step).map (fun s => s.1.V 1) = some 0 ∧
    ((loadMachine [0x60, 0x00, 0x01, 0x05]).bind step).map (fun s => s.1.V 1) = some 0 := by
  decide

/-- C5, evaluated at the failing input `r = 1`, `v = 5`, `p = 0`: on the
machine loaded from the image `70 01 05` one driver iteration returns with
`V[1]` still 0, not `(0 + 5) % 256`, and the body of `case ADD_VX` run on that
machine reads `0x70` for both operands and stores outside `V[16]`.  The images
`71 05` and `70 00 01 05` leave `V[1] = 0` as well. -/
theorem add_register_step_keeps_V :
    ((loadMachine [0x70, 0x01, 0x05]).bind step).map (fun s => s.1.V 1) = some 0 ∧
    ((loadMachine [0x70, 0x01, 0x05]).bind (fun s => caseADD_VX s.1)).map
        (fun c => c.V 1) = none ∧
    ((loadMachine [0x71, 0x05]).bind step).map (fun s => s.1.V 1) = some 0 ∧
    ((loadMachine [0x70, 0x00, 0x01, 0x05]).bind step).map (fun s => s.1.V 1) = some 0 := by
  decide

/-- C6, evaluated at the failing input `a = 0x2A0`: on the machine loaded from
the image `10 02 A0` one driver iteration returns with `PC` still `0x200`, and
the body of `case JUMP` run on that machine sets `PC` to the byte `0x10` it
reads at the old `PC`; on the image `12 A0` the results are `0x200` and
`0x12`.  None of them is `0x2A0`. -/
theorem jump_misses_target :
    ((loadMachine [0x10, 0x02, 0xA0]).bind step).map (fun s => s.1.PC) = some 0x200 ∧
    ((loadMachine [0x10, 0x02, 0xA0]).bind (fun s => caseJUMP s.1)).map
        (fun c => c.PC) = some 0x10 ∧
    ((loadMachine [0x12, 0xA0]).bind step).map (fun s => s.1.PC) = some 0x200 ∧
    ((loadMachine [0x12, 0xA0]).bind (fun s => caseJUMP s.1)).map
        (fun c => c.PC) = some 0x12 := by
  decide

/-- C9, evaluated at the failing input `n = 1`: on the machine loaded from the
image `D0 01` (`I = 0x200` at the byte `0xD0`, `V0 = V1 = 0`, zero-filled
framebuffer), `decode` run on `0xD001`, on the byte `0xD1` and on `DRAW`
itself, and one driver iteration, all return with the cell `(0, 0)` still 0,
whereas the sprite-drawing routine with height 1 sets it to 1; and the height
computed from the only value the label `case DRAW` names is
`DRAW & 0x000F = 0`. -/
theorem decode_draw_opcode_draws_nothing :
    ((loadMachine [0xD0, 0x01]).bind (fun s => decode 0xD001 s.1 s.2)).map
        (fun p => p.2 0 0) = some 0 ∧
    ((loadMachine [0xD0, 0x01]).bind (fun s => decode 0xD1 s.1 s.2)).map
        (fun p => p.2 0 0) = some 0 ∧
    ((loadMachine [0xD0, 0x01]).bind (fun s => decode DRAW s.1 s.2)).map
        (fun p => p.2 0 0) = some 0 ∧
    ((loadMachine [0xD0, 0x01]).bind step).map (fun p => p.2 0 0) = some 0 ∧
    ((loadMachine [0xD0, 0x01]).bind (fun s => drawSprite 1 s.1 s.2)).map
        (fun p => p.2 0 0) = some 1 ∧
    (DRAW &&& 0x000F) % 256 = 0 := by
  decide

/-- C10, the code on every program image: whatever image was loaded and however
many driver iterations have run, the loop has returned, the cell of row 3 and
column 5 holds 0, `V0` and `V1` hold 0 and `PC` is `0x200`. -/
theorem scenario_never_draws (rom : List Nat) (n : Nat) (s : CPU × Display)
    (hload : loadMachine rom = some s) :
    ∃ s', run n s = some s' ∧ s'.2 3 5 = 0 ∧ s'.1.V 0 = 0 ∧ s'.1.V 1 = 0 ∧
      s'.1.PC = 0x200 := by
  obtain ⟨hd, hpc, hv⟩ := loadMachine_some rom s hload
  have hrun : run n s = some s := by
    obtain ⟨cpu, d⟩ := s
    simp only at hd hpc
    subst hd
    exact run_zeroDisplay cpu (by rw [hpc]; decide) n
  exact ⟨s, hrun, by rw [hd]; rfl, hv 0, hv 1, hpc⟩

/-- C10 at the scenario image after four driver iterations: the cell `(3, 5)`
holds 0. -/
theorem scenario_never_draws_witness :
    ∃ s s', loadMachine scenarioRom = some s ∧ run 4 s = some s' ∧ s'.2 3 5 = 0 ∧
      s'.1.V 0 = 0 ∧ s'.1.V 1 = 0 ∧ s'.1.PC = 0x200 :=
  match scenario_never_draws scenarioRom 4 _ rfl with
  | ⟨s', h⟩ => ⟨_, s', rfl, h⟩

/-! ## Load layout -/

theorem forLoop_setMem_memory (f : Nat → Nat) (k : Nat) (cpu : CPU) (j : Nat) :
    (forLoop (fun i c => setMem c i (f i)) k cpu).memory j =
      if j < k then f j else cpu.memory j := by
  induction k with
  | zero => simp [forLoop]
  | succ k ih =>
    show (if j = k then f k
      else (forLoop (fun i c => setMem c i (f i)) k cpu).memory j) = _
    rw [ih]
    by_cases hj : j = k
    · subst hj
      simp
    · by_cases hlt : j < k
      · have : j < k + 1 := by omega
        simp [hj, hlt, this]
      · have : ¬ j < k + 1 := by omega
        simp [hj, hlt, this]

theorem installFont_memory (cpu : CPU) (j : Nat) :
    (installFont cpu).memory j =
      if j < font_data.length then font_data.getD j 0 else cpu.memory j :=
  forLoop_setMem_memory _ _ cpu j

theorem getElem?_of_getD (l : List Nat) (i : Nat) (h : i < l.length) :
    l[i]? = some (l.getD i 0) := by
  simp [List.getD, List.getElem?_eq_getElem h]

/-- C11: for every program image of length at least 1, `main` gets to the
driver loop with a zero-filled framebuffer and a CPU whose memory holds
`font_data[i]` at every `i < 80`, `image[j]` at `0x200 + j` for every
`j < min L (4096 - 0x200)`, and 0 at every other address (so image bytes past
the cap are not stored), whose V registers are all 0, and whose `PC` and `I`
are `0x200`. -/
theorem load_layout (rom : List Nat) (hlen : 1 ≤ rom.length) :
    ∃ cpu, loadMachine rom = some (cpu, zeroDisplay) ∧
      (∀ i, i < 80 → font_data[i]? = some (cpu.memory i)) ∧
      (∀ j, j < min rom.length (MEM - 0x200) →
        rom[j]? = some (cpu.memory (0x200 + j))) ∧
      (∀ i, 80 ≤ i → ¬ (0x200 ≤ i ∧ i < 0x200 + min rom.length (MEM - 0x200)) →
        cpu.memory i = 0) ∧
      (∀ r, cpu.V r = 0) ∧ cpu.PC = 0x200 ∧ cpu.I = 0x200 := by
  have hflen : font_data.length = 80 := rfl
  have hn : (readRom rom (installFont zeroCPU)).2 ≠ 0 := by
    show min rom.length (MEM - 0x200) ≠ 0
    unfold MEM
    omega
  refine ⟨{ (readRom rom (installFont zeroCPU)).1 with PC := 0x200, I := 0x200 },
    ?_, ?_, ?_, ?_, ?_, rfl, rfl⟩
  · unfold loadMachine
    simp only [if_neg hn]
  · intro i hi
    show font_data[i]? = some (if 0x200 ≤ i ∧ i < 0x200 + min rom.length (MEM - 0x200)
      then rom.getD (i - 0x200) 0 else (installFont zeroCPU).memory i)
    have h1 : ¬ (0x200 ≤ i ∧ i < 0x200 + min rom.length (MEM - 0x200)) := by omega
    rw [if_neg h1, installFont_memory, if_pos (by omega)]
    exact getElem?_of_getD font_data i (by omega)
  · intro j hj
    show rom[j]? = some (if 0x200 ≤ 0x200 + j ∧
        0x200 + j < 0x200 + min rom.length (MEM - 0x200)
      then rom.getD (0x200 + j - 0x200) 0 else (installFont zeroCPU).memory (0x200 + j))
    have h1 : 0x200 ≤ 0x200 + j ∧ 0x200 + j < 0x200 + min rom.length (MEM - 0x200) := by
      omega
    rw [if_pos h1, Nat.add_sub_cancel_left]
    exact getElem?_of_getD rom j (by omega)
  · intro i hi hout
    show (if 0x200 ≤ i ∧ i < 0x200 + min rom.length (MEM - 0x200)
      then rom.getD (i - 0x200) 0 else (installFont zeroCPU).memory i) = 0
    rw [if_neg hout, installFont_memory, if_neg (by omega)]
    rfl
  · intro r
    show (installFont zeroCPU).V r = 0
    rw [installFont_V]
    rfl

/-- Witness for C11: the scenario image of 11 bytes. -/
theorem load_layout_witness :
    ∃ cpu, loadMachine scenarioRom = some (cpu, zeroDisplay) ∧
      (∀ i, i < 80 → font_data[i]? = some (cpu.memory i)) ∧
      (∀ j, j < min scenarioRom.length (MEM - 0x200) →
        scenarioRom[j]? = some (cpu.memory (0x200 + j))) ∧
      (∀ i, 80 ≤ i →
        ¬ (0x200 ≤ i ∧ i < 0x200 + min scenarioRom.length (MEM - 0x200)) →
        cpu.memory i = 0) ∧
      (∀ r, cpu.V r = 0) ∧ cpu.PC = 0x200 ∧ cpu.I = 0x200 :=
  load_layout scenarioRom (by decide)

/-! ## What `decode` and the driver loop can do -/

/-- C18: `decode`'s parameter is 8 bits wide, so for every opcode byte `b` and
every machine state `decode` returns with the whole CPU (memory, V0-VF, I, PC,
SP, stack, timers) unchanged; the framebuffer is all-zero afterwards when
`b = 0xE0` and unchanged when `b ≠ 0xE0`; and `b` equals none of the selectors
of the jump, set-register, add-to-register, set-index and draw cases. -/
theorem decode_reaches_two_cases (b : Nat) (cpu : CPU) (display : Display)
    (hb : b < 256) :
    ∃ d', decode b cpu display = some (cpu, d') ∧
      (b = 0xE0 → ∀ y x, y < 32 → x < 64 → d' y x = 0) ∧
      (b ≠ 0xE0 → d' = display) ∧
      b ≠ JUMP ∧ b ≠ SET_VX ∧ b ≠ ADD_VX ∧ b ≠ SET_I ∧ b ≠ DRAW := by
  have hsel : b ≠ JUMP ∧ b ≠ SET_VX ∧ b ≠ ADD_VX ∧ b ≠ SET_I ∧ b ≠ DRAW := by
    unfold JUMP SET_VX ADD_VX SET_I DRAW
    omega
  by_cases h : b = 0xE0
  · subst h
    refine ⟨caseCLS display, by simp [decode, CLS], ?_, fun hne => absurd rfl hne, hsel⟩
    intro _ y x hy hx
    rw [caseCLS_cell]
    simp [SCREEN_HEIGHT, SCREEN_WIDTH, hy, hx]
  · have hne : b % 256 ≠ CLS := by
      rw [Nat.mod_eq_of_lt hb]
      exact h
    exact ⟨display, decode_of_ne_cls b cpu display hne, fun he => absurd he h,
      fun _ => rfl, hsel⟩

/-- Witness for C18: the byte `0x60` on the font machine. -/
theorem decode_reaches_two_cases_witness :
    ∃ d', decode 0x60 glyphCPU zeroDisplay = some (glyphCPU, d') ∧
      (0x60 = 0xE0 → ∀ y x, y < 32 → x < 64 → d' y x = 0) ∧
      (0x60 ≠ 0xE0 → d' = zeroDisplay) ∧
      0x60 ≠ JUMP ∧ 0x60 ≠ SET_VX ∧ 0x60 ≠ ADD_VX ∧ 0x60 ≠ SET_I ∧ 0x60 ≠ DRAW :=
  decode_reaches_two_cases 0x60 glyphCPU zeroDisplay (by decide)

/-- C19: from the state `main` builds after a successful load of any program
image, every number `n` of driver-loop iterations returns and leaves the
machine as it was: `PC` is still `0x200`, every V register is still 0, memory
is unchanged and every framebuffer cell is 0. -/
theorem machine_never_progresses (rom : List Nat) (s : CPU × Display) (n : Nat)
    (hload : loadMachine rom = some s) :
    ∃ s', run n s = some s' ∧ s'.1.PC = 0x200 ∧ (∀ r, s'.1.V r = 0) ∧
      s'.1.memory = s.1.memory ∧ ∀ y x, s'.2 y x = 0 := by
  obtain ⟨hd, hpc, hv⟩ := loadMachine_some rom s hload
  have hrun : run n s = some s := by
    obtain ⟨cpu, d⟩ := s
    simp only at hd hpc
    subst hd
    exact run_zeroDisplay cpu (by rw [hpc]; decide) n
  refine ⟨s, hrun, hpc, hv, rfl, ?_⟩
  intro y x
  rw [hd]
  rfl

/-- Witness for C19: the scenario image and 60 driver iterations. -/
theorem machine_never_progresses_witness :
    ∃ s s', loadMachine scenarioRom = some s ∧ run 60 s = some s' ∧
      s'.1.PC = 0x200 ∧ (∀ r, s'.1.V r = 0) ∧ s'.1.memory = s.1.memory ∧
      ∀ y x, s'.2 y x = 0 :=
  match machine_never_progresses scenarioRom _ 60 rfl with
  | ⟨s', h⟩ => ⟨_, s', rfl, h⟩

/-! ## The collision flag -/

/-- One bit step on `V[0xF]`: it becomes 1 when the bit is set and the target
cell holds 1, and is kept otherwise. -/
theorem drawBit_VF (x y row pixel col : Nat) (s : CPU × Display) :
    (drawBit x y row pixel col s).1.V 0xF =
      if pixel &&& (0x80 >>> col) ≠ 0 ∧ s.2 ((y + row) % 32) ((x + col) % 64) = 1
      then 1 else s.1.V 0xF := by
  unfold drawBit
  by_cases hb : pixel &&& (0x80 >>> col) ≠ 0
  · by_cases h1 : s.2 ((y + row) % 32) ((x + col) % 64) = 1
    · simp [hb, h1, SCREEN_HEIGHT, SCREEN_WIDTH, setV]
    · simp [hb, h1, SCREEN_HEIGHT, SCREEN_WIDTH]
  · simp [hb]

/-- The inner loop on `V[0xF]`: after the first `k` bit positions it is 1 when
a set bit among them landed on a cell that held 1 before the loop, and is kept
otherwise. -/
theorem forLoop_drawBit_VF (x y row pixel : Nat) (s : CPU × Display) (k : Nat)
    (hk : k ≤ 64) :
    ((∃ col, col < k ∧ pixel &&& (0x80 >>> col) ≠ 0 ∧
        s.2 ((y + row) % 32) ((x + col) % 64) = 1) →
      (forLoop (drawBit x y row pixel) k s).1.V 0xF = 1) ∧
    ((¬ ∃ col, col < k ∧ pixel &&& (0x80 >>> col) ≠ 0 ∧
        s.2 ((y + row) % 32) ((x + col) % 64) = 1) →
      (forLoop (drawBit x y row pixel) k s).1.V 0xF = s.1.V 0xF) := by
  induction k with
  | zero =>
    constructor
    · rintro ⟨col, hcol, _⟩
      omega
    · intro _
      rfl
  | succ k ih =>
    obtain ⟨ih1, ih0⟩ := ih (by omega)
    have hcell : (forLoop (drawBit x y row pixel) k s).2 ((y + row) % 32) ((x + k) % 64) =
        s.2 ((y + row) % 32) ((x + k) % 64) := by
      apply ((forLoop_drawBit x y row pixel s k (by omega)).2 _ _).2
      rintro ⟨col, hcol, _, _, hc⟩
      omega
    simp only [forLoop]
    rw [drawBit_VF, hcell]
    by_cases hnew : pixel &&& (0x80 >>> k) ≠ 0 ∧ s.2 ((y + row) % 32) ((x + k) % 64) = 1
    · rw [if_pos hnew]
      constructor
      · intro _
        rfl
      · intro hno
        exact absurd ⟨k, by omega, hnew⟩ hno
    · rw [if_neg hnew]
      constructor
      · rintro ⟨col, hcol, hbit⟩
        have hlt : col < k := by
          rcases Nat.lt_or_ge col k with h | h
          · exact h
          · have : col = k := by omega
            subst this
            exact absurd hbit hnew
        exact ih1 ⟨col, hlt, hbit⟩
      · intro hno
        apply ih0
        rintro ⟨col, hcol, hbit⟩
        exact hno ⟨col, by omega, hbit⟩

/-- The outer loop on `V[0xF]`: after the first `n` sprite rows it is 1 when a
set sprite bit landed on a cell that held 1 before the loop, and is kept
otherwise. -/
theorem forLoopM_drawRow_VF (x y : Nat) (cpu : CPU) (display : Display) (n : Nat)
    (hn : n ≤ 32) (hmem : cpu.I + n ≤ MEM) (s' : CPU × Display)
    (hrun : forLoopM (drawRow x y) n (cpu, display) = some s') :
    ((∃ row, row < n ∧ ∃ col, col < 8 ∧
        cpu.memory (cpu.I + row) &&& (0x80 >>> col) ≠ 0 ∧
        display ((y + row) % 32) ((x + col) % 64) = 1) →
      s'.1.V 0xF = 1) ∧
    ((¬ ∃ row, row < n ∧ ∃ col, col < 8 ∧
        cpu.memory (cpu.I + row) &&& (0x80 >>> col) ≠ 0 ∧
        display ((y + row) % 32) ((x + col) % 64) = 1) →
      s'.1.V 0xF = cpu.V 0xF) := by
  induction n generalizing s' with
  | zero =>
    simp only [forLoopM, Option.some.injEq] at hrun
    subst hrun
    constructor
    · rintro ⟨row, hrow, _⟩
      omega
    · intro _
      rfl
  | succ k ih =>
    obtain ⟨vf, dk, hk, hcells⟩ := forLoopM_drawRow x y cpu display k (by omega) (by omega)
    obtain ⟨ih1, ih0⟩ := ih (by omega) (by omega) _ hk
    have hI : (setV cpu 0xF vf).I + k < MEM := by
      show cpu.I + k < MEM
      omega
    simp only [forLoopM, hk, drawRow, if_pos hI, Option.some.injEq] at hrun
    subst hrun
    have hm : (setV cpu 0xF vf, dk).1.memory ((setV cpu 0xF vf, dk).1.I + k) =
        cpu.memory (cpu.I + k) := rfl
    rw [hm]
    obtain ⟨hv1, hv0⟩ :=
      forLoop_drawBit_VF x y k (cpu.memory (cpu.I + k)) (setV cpu 0xF vf, dk) 8 (by omega)
    have hsame : ∀ col, dk ((y + k) % 32) ((x + col) % 64) =
        display ((y + k) % 32) ((x + col) % 64) := by
      intro col
      apply (hcells _ _).2
      rintro ⟨row, hrow, _, _, _, hr, _⟩
      omega
    by_cases hnew : ∃ col, col < 8 ∧ cpu.memory (cpu.I + k) &&& (0x80 >>> col) ≠ 0 ∧
        display ((y + k) % 32) ((x + col) % 64) = 1
    · have hnew' : ∃ col, col < 8 ∧ cpu.memory (cpu.I + k) &&& (0x80 >>> col) ≠ 0 ∧
          (setV cpu 0xF vf, dk).2 ((y + k) % 32) ((x + col) % 64) = 1 := by
        obtain ⟨col, hcol, hbit, hone⟩ := hnew
        exact ⟨col, hcol, hbit, (hsame col).trans hone⟩
      rw [hv1 hnew']
      constructor
      · intro _
        rfl
      · intro hno
        obtain ⟨col, hcol, hbit⟩ := hnew
        exact absurd ⟨k, by omega, col, hcol, hbit⟩ hno
    · have hnew' : ¬ ∃ col, col < 8 ∧ cpu.memory (cpu.I + k) &&& (0x80 >>> col) ≠ 0 ∧
          (setV cpu 0xF vf, dk).2 ((y + k) % 32) ((x + col) % 64) = 1 := by
        rintro ⟨col, hcol, hbit, hone⟩
        exact hnew ⟨col, hcol, hbit, (hsame col).symm.trans hone⟩
      rw [hv0 hnew']
      constructor
      · rintro ⟨row, hrow, col, hcol, hbit⟩
        have hlt : row < k := by
          rcases Nat.lt_or_ge row k with h | h
          · exact h
          · have : row = k := by omega
            subst this
            exact absurd ⟨col, hcol, hbit⟩ hnew
        exact ih1 ⟨row, hlt, col, hcol, hbit⟩
      · intro hno
        apply ih0
        rintro ⟨row, hrow, rest⟩
        exact hno ⟨row, by omega, rest⟩

/-- The collision flag after the sprite-drawing routine: 1 when a set sprite
bit landed on a cell that held 1 before the draw, 0 otherwise. -/
theorem drawSprite_VF (n : Nat) (cpu : CPU) (display : Display)
    (hn : n ≤ 32) (hmem : cpu.I + n ≤ MEM) (s' : CPU × Display)
    (hrun : drawSprite n cpu display = some s') :
    (Collides cpu display n → s'.1.V 0xF = 1) ∧
      (¬ Collides cpu display n → s'.1.V 0xF = 0) :=
  forLoopM_drawRow_VF (cpu.V 0) (cpu.V 1) (setV cpu 0xF 0) display n hn hmem s' hrun

/-! ## The sprite-drawing routine for any height -/

/-- One sprite row changes the CPU in `V[0xF]` only. -/
theorem drawRow_cpu (x y row : Nat) (s s' : CPU × Display)
    (h : drawRow x y row s = some s') : ∃ vf, s'.1 = setV s.1 0xF vf := by
  unfold drawRow at h
  by_cases hI : s.1.I + row < MEM
  · simp only [if_pos hI, Option.some.injEq] at h
    subst h
    exact (forLoop_drawBit x y row _ s 8 (by omega)).1
  · simp [hI] at h

/-- Any number of sprite rows changes the CPU in `V[0xF]` only. -/
theorem forLoopM_drawRow_cpu (x y n : Nat) (s s' : CPU × Display)
    (h : forLoopM (drawRow x y) n s = some s') : ∃ vf, s'.1 = setV s.1 0xF vf := by
  induction n generalizing s' with
  | zero =>
    simp only [forLoopM, Option.some.injEq] at h
    subst h
    exact ⟨s.1.V 0xF, (setV_self s.1).symm⟩
  | succ k ih =>
    simp only [forLoopM] at h
    cases hk : forLoopM (drawRow x y) k s with
    | none => simp [hk] at h
    | some sk =>
      rw [hk] at h
      obtain ⟨vf, hvf⟩ := ih sk hk
      obtain ⟨vf', hvf'⟩ := drawRow_cpu x y k sk s' h
      exact ⟨vf', by rw [hvf', hvf, setV_setV]⟩

/-- The row loop returns whenever the sprite bytes lie inside memory. -/
theorem forLoopM_drawRow_returns (x y n : Nat) (s : CPU × Display)
    (hmem : s.1.I + n ≤ MEM) : ∃ s', forLoopM (drawRow x y) n s = some s' := by
  induction n with
  | zero => exact ⟨s, rfl⟩
  | succ k ih =>
    obtain ⟨sk, hk⟩ := ih (by omega)
    obtain ⟨vf, hvf⟩ := forLoopM_drawRow_cpu x y k s sk hk
    have hI : sk.1.I + k < MEM := by
      rw [hvf]
      show s.1.I + k < MEM
      omega
    exact ⟨forLoop (drawBit x y k (sk.1.memory (sk.1.I + k))) 8 sk,
      by simp only [forLoopM, hk, drawRow, if_pos hI]⟩

theorem flipCell_binary (v : Nat) (h : v = 0 ∨ v = 1) : flipCell v = 0 ∨ flipCell v = 1 := by
  rcases h with h | h <;> subst h <;> decide

theorem drawBit_binary (x y row pixel col : Nat) (s : CPU × Display)
    (h : BinaryDisplay s.2) : BinaryDisplay (drawBit x y row pixel col s).2 := by
  intro r hr c hc
  rw [drawBit_display]
  split
  · exact flipCell_binary _ (h r hr c hc)
  · exact h r hr c hc

theorem forLoop_drawBit_binary (x y row pixel k : Nat) (s : CPU × Display)
    (h : BinaryDisplay s.2) : BinaryDisplay (forLoop (drawBit x y row pixel) k s).2 := by
  induction k with
  | zero => exact h
  | succ k ih => exact drawBit_binary x y row pixel k _ ih

theorem forLoopM_drawRow_binary (x y n : Nat) (s s' : CPU × Display)
    (h : BinaryDisplay s.2) (hrun : forLoopM (drawRow x y) n s = some s') :
    BinaryDisplay s'.2 := by
  induction n generalizing s' with
  | zero =>
    simp only [forLoopM, Option.some.injEq] at hrun
    subst hrun
    exact h
  | succ k ih =>
    simp only [forLoopM] at hrun
    cases hk : forLoopM (drawRow x y) k s with
    | none => simp [hk] at hrun
    | some sk =>
      rw [hk] at hrun
      unfold drawRow at hrun
      by_cases hI : sk.1.I + k < MEM
      · simp only [if_pos hI, Option.some.injEq] at hrun
        subst hrun
        exact forLoop_drawBit_binary x y k _ 8 sk (ih sk hk)
      · simp [hI] at hrun

theorem caseCLS_binary (display : Display) (h : BinaryDisplay display) :
    BinaryDisplay (caseCLS display) := by
  intro y hy x hx
  rw [caseCLS_cell]
  by_cases hin : y < SCREEN_HEIGHT ∧ x < SCREEN_WIDTH
  · rw [if_pos hin]
    exact Or.inl rfl
  · rw [if_neg hin]
    exact h y hy x hx

theorem decode_binary (opcode : Nat) (cpu : CPU) (display : Display)
    (h : BinaryDisplay display) :
    ∃ cpu' d', decode opcode cpu display = some (cpu', d') ∧ BinaryDisplay d' := by
  by_cases hc : opcode % 256 = CLS
  · exact ⟨cpu, caseCLS display, by simp [decode, hc], caseCLS_binary display h⟩
  · exact ⟨cpu, display, decode_of_ne_cls opcode cpu display hc, h⟩

theorem zeroDisplay_binary : BinaryDisplay zeroDisplay :=
  fun _ _ _ _ => Or.inl rfl

/-- C12: if every framebuffer cell is 0 or 1, then `decode` on any opcode and
CPU state returns with every cell 0 or 1, the clear-screen case leaves every
cell 0 or 1, and the sprite-drawing routine with any height, coordinates and
sprite data returns when its sprite bytes lie inside memory and, whenever it
returns, leaves every cell 0 or 1; hence every framebuffer these operations
produce from the zero-filled one is binary. -/
theorem binary_preserved (display : Display) (hbin : BinaryDisplay display) :
    (∀ opcode cpu, ∃ cpu' d', decode opcode cpu display = some (cpu', d') ∧
      BinaryDisplay d') ∧
    BinaryDisplay (caseCLS display) ∧
    (∀ n cpu, cpu.I + n ≤ MEM →
      ∃ cpu' d', drawSprite n cpu display = some (cpu', d') ∧ BinaryDisplay d') ∧
    (∀ n cpu cpu' d', drawSprite n cpu display = some (cpu', d') → BinaryDisplay d') ∧
    (∀ d, ReachableDisplay d → BinaryDisplay d) := by
  have hdraw : ∀ (dsp : Display), BinaryDisplay dsp → ∀ n cpu cpu' d',
      drawSprite n cpu dsp = some (cpu', d') → BinaryDisplay d' := by
    intro dsp hd n cpu cpu' d' hrun
    exact forLoopM_drawRow_binary (cpu.V 0) (cpu.V 1) n (setV cpu 0xF 0, dsp) (cpu', d')
      hd hrun
  refine ⟨fun opcode cpu => decode_binary opcode cpu display hbin,
    caseCLS_binary display hbin, ?_, hdraw display hbin, ?_⟩
  · intro n cpu hmem
    obtain ⟨s', hs'⟩ :=
      forLoopM_drawRow_returns (cpu.V 0) (cpu.V 1) n (setV cpu 0xF 0, display) hmem
    exact ⟨s'.1, s'.2, hs', hdraw display hbin n cpu s'.1 s'.2 hs'⟩
  · intro d hreach
    induction hreach with
    | initial => exact zeroDisplay_binary
    | byDecode opcode cpu cpu' d d' _ hdec ih =>
      obtain ⟨c2, d2, h2, hb2⟩ := decode_binary opcode cpu d ih
      rw [hdec] at h2
      simp only [Option.some.injEq, Prod.mk.injEq] at h2
      rw [h2.2]
      exact hb2
    | byClear d _ ih => exact caseCLS_binary d ih
    | byDraw n cpu cpu' d d' _ hrun ih => exact hdraw d ih n cpu cpu' d' hrun

/-- Witness for C12: the zero-filled framebuffer. -/
theorem binary_preserved_witness :
    (∀ opcode cpu, ∃ cpu' d', decode opcode cpu zeroDisplay = some (cpu', d') ∧
      BinaryDisplay d') ∧
    BinaryDisplay (caseCLS zeroDisplay) ∧
    (∀ n cpu, cpu.I + n ≤ MEM →
      ∃ cpu' d', drawSprite n cpu zeroDisplay = some (cpu', d') ∧ BinaryDisplay d') ∧
    (∀ n cpu cpu' d', drawSprite n cpu zeroDisplay = some (cpu', d') →
      BinaryDisplay d') ∧
    (∀ d, ReachableDisplay d → BinaryDisplay d) :=
  binary_preserved zeroDisplay (fun _ _ _ _ => Or.inl rfl)

/-! ## Collision flag, redraw and the XOR mask -/

/-- A row loop that returned has read all its sprite bytes inside memory. -/
theorem forLoopM_drawRow_mem (x y n : Nat) (s s' : CPU × Display)
    (h : forLoopM (drawRow x y) n s = some s') : n = 0 ∨ s.1.I + n ≤ MEM := by
  cases n with
  | zero => exact Or.inl rfl
  | succ k =>
    right
    simp only [forLoopM] at h
    cases hk : forLoopM (drawRow x y) k s with
    | none => simp [hk] at h
    | some sk =>
      rw [hk] at h
      obtain ⟨vf, hvf⟩ := forLoopM_drawRow_cpu x y k s sk hk
      unfold drawRow at h
      by_cases hI : sk.1.I + k < MEM
      · rw [hvf] at hI
        have hI' : s.1.I + k < MEM := hI
        omega
      · simp [hI] at h

/-- The collision flag after the sprite-drawing routine, whenever the routine
returns. -/
theorem drawSprite_VF_of_some (n : Nat) (cpu : CPU) (display : Display)
    (hn : n ≤ 32) (s' : CPU × Display) (hrun : drawSprite n cpu display = some s') :
    (Collides cpu display n → s'.1.V 0xF = 1) ∧
      (¬ Collides cpu display n → s'.1.V 0xF = 0) := by
  rcases forLoopM_drawRow_mem (cpu.V 0) (cpu.V 1) n (setV cpu 0xF 0, display) s' hrun
    with h0 | hmem
  · subst h0
    simp only [drawSprite, forLoopM, Option.some.injEq] at hrun
    subst hrun
    constructor
    · rintro ⟨row, hrow, _⟩
      omega
    · intro _
      rfl
  · exact drawSprite_VF n cpu display hn hmem s' hrun

/-- The sprite-drawing routine returns whenever the sprite bytes lie inside
memory. -/
theorem drawSprite_returns (n : Nat) (cpu : CPU) (display : Display)
    (hmem : cpu.I + n ≤ MEM) : ∃ cpu' d', drawSprite n cpu display = some (cpu', d') := by
  obtain ⟨s', hs'⟩ :=
    forLoopM_drawRow_returns (cpu.V 0) (cpu.V 1) n (setV cpu 0xF 0, display) hmem
  exact ⟨s'.1, s'.2, hs'⟩


/-- C13: for every framebuffer (binary or not), every CPU state and every
height `n < 16`, the sprite-drawing routine returns when its sprite bytes lie
inside memory, and whenever it returns `VF` is 1 if at least one set sprite
bit targeted a cell that held 1 before the draw, and 0 otherwise, whatever
`VF` held before. -/
theorem collision_flag (n : Nat) (cpu : CPU) (display : Display) (hn : n < 16) :
    (cpu.I + n ≤ MEM → ∃ cpu' d', drawSprite n cpu display = some (cpu', d')) ∧
    ∀ cpu' d', drawSprite n cpu display = some (cpu', d') →
      ((∃ row, row < n ∧ ∃ col, col < 8 ∧
          cpu.memory (cpu.I + row) &&& (0x80 >>> col) ≠ 0 ∧
          display ((cpu.V 1 + row) % 32) ((cpu.V 0 + col) % 64) = 1) →
        cpu'.V 0xF = 1) ∧
      ((¬ ∃ row, row < n ∧ ∃ col, col < 8 ∧
          cpu.memory (cpu.I + row) &&& (0x80 >>> col) ≠ 0 ∧
          display ((cpu.V 1 + row) % 32) ((cpu.V 0 + col) % 64) = 1) →
        cpu'.V 0xF = 0) :=
  ⟨drawSprite_returns n cpu display,
    fun cpu' d' hrun => drawSprite_VF_of_some n cpu display (by omega) (cpu', d') hrun⟩

/-- Witness for C13: the glyph "0" drawn at `(63, 30)`, first on the
zero-filled framebuffer (no collision, `VF = 0`), then on the result
(collision, `VF = 1`). -/
theorem collision_flag_witness :
    ((glyphCPU.I + 5 ≤ MEM →
        ∃ cpu' d', drawSprite 5 glyphCPU zeroDisplay = some (cpu', d')) ∧
      ∀ cpu' d', drawSprite 5 glyphCPU zeroDisplay = some (cpu', d') →
        ((∃ row, row < 5 ∧ ∃ col, col < 8 ∧
            glyphCPU.memory (glyphCPU.I + row) &&& (0x80 >>> col) ≠ 0 ∧
            zeroDisplay ((glyphCPU.V 1 + row) % 32) ((glyphCPU.V 0 + col) % 64) = 1) →
          cpu'.V 0xF = 1) ∧
        ((¬ ∃ row, row < 5 ∧ ∃ col, col < 8 ∧
            glyphCPU.memory (glyphCPU.I + row) &&& (0x80 >>> col) ≠ 0 ∧
            zeroDisplay ((glyphCPU.V 1 + row) % 32) ((glyphCPU.V 0 + col) % 64) = 1) →
          cpu'.V 0xF = 0)) ∧
    (drawSprite 5 glyphCPU zeroDisplay).map (fun p => p.1.V 0xF) = some 0 :=
  ⟨collision_flag 5 glyphCPU zeroDisplay (by decide), by decide⟩

/-- C14: for every framebuffer, every CPU state and every height `n < 16`, the
first run of the sprite-drawing routine returns when its sprite bytes lie
inside memory, and whenever it returns and at least one cell targeted by a set
sprite bit then holds 1, the second run with the same sprite and coordinates
returns with `VF = 1`. -/
theorem redraw_collides (n : Nat) (cpu : CPU) (display : Display) (hn : n < 16) :
    (cpu.I + n ≤ MEM → ∃ cpu1 d1, drawSprite n cpu display = some (cpu1, d1)) ∧
    ∀ cpu1 d1, drawSprite n cpu display = some (cpu1, d1) →
      (∃ row, row < n ∧ ∃ col, col < 8 ∧
          cpu.memory (cpu.I + row) &&& (0x80 >>> col) ≠ 0 ∧
          d1 ((cpu.V 1 + row) % 32) ((cpu.V 0 + col) % 64) = 1) →
      ∃ cpu2 d2, drawSprite n cpu1 d1 = some (cpu2, d2) ∧ cpu2.V 0xF = 1 := by
  refine ⟨drawSprite_returns n cpu display, ?_⟩
  intro cpu1 d1 h1 hone
  obtain ⟨vf1, hvf1⟩ :=
    forLoopM_drawRow_cpu (cpu.V 0) (cpu.V 1) n (setV cpu 0xF 0, display) (cpu1, d1) h1
  have hcpu1 : cpu1 = setV cpu 0xF vf1 := by
    have h : cpu1 = setV (setV cpu 0xF 0) 0xF vf1 := hvf1
    rw [h, setV_setV]
  subst hcpu1
  have hmem : cpu.I + n ≤ MEM := by
    rcases forLoopM_drawRow_mem (cpu.V 0) (cpu.V 1) n (setV cpu 0xF 0, display) _ h1
      with h0 | hm
    · subst h0
      obtain ⟨row, hrow, _⟩ := hone
      omega
    · exact hm
  obtain ⟨cpu2, d2, h2⟩ := drawSprite_returns n (setV cpu 0xF vf1) d1 hmem
  exact ⟨cpu2, d2, h2,
    (drawSprite_VF_of_some n (setV cpu 0xF vf1) d1 (by omega) (cpu2, d2) h2).1 hone⟩

/-- Witness for C14: the glyph "0" drawn twice at `(63, 30)` on the zero-filled
framebuffer; evaluated, the second run ends with `VF = 1`. -/
theorem redraw_collides_witness :
    ((glyphCPU.I + 5 ≤ MEM →
        ∃ cpu1 d1, drawSprite 5 glyphCPU zeroDisplay = some (cpu1, d1)) ∧
      ∀ cpu1 d1, drawSprite 5 glyphCPU zeroDisplay = some (cpu1, d1) →
        (∃ row, row < 5 ∧ ∃ col, col < 8 ∧
            glyphCPU.memory (glyphCPU.I + row) &&& (0x80 >>> col) ≠ 0 ∧
            d1 ((glyphCPU.V 1 + row) % 32) ((glyphCPU.V 0 + col) % 64) = 1) →
        ∃ cpu2 d2, drawSprite 5 cpu1 d1 = some (cpu2, d2) ∧ cpu2.V 0xF = 1) ∧
    ((drawSprite 5 glyphCPU zeroDisplay).bind (fun p => drawSprite 5 p.1 p.2)).map
      (fun p => p.1.V 0xF) = some 1 :=
  ⟨redraw_collides 5 glyphCPU zeroDisplay (by decide), by decide⟩

/-- C17: for every CPU state with `I + n ≤ 4096`, every framebuffer (of 8-bit
cells) and every height `n < 16`, the sprite-drawing routine returns and each
cell `(r, c)` equals its old value XOR 1 when there are `row < n` and `col < 8`
with `r = (V1 + row) % 32`, `c = (V0 + col) % 64` and bit `0x80 >> col` of
`memory[I + row]` set, and equals its old value otherwise; memory, `I`, `PC`,
`SP`, the stack, the timers and every V register other than VF are
unchanged. -/
theorem draw_is_xor_mask (n : Nat) (cpu : CPU) (display : Display)
    (hn : n < 16) (hmem : cpu.I + n ≤ MEM) (hbyte : ByteDisplay display) :
    ∃ cpu' d', drawSprite n cpu display = some (cpu', d') ∧
      (∀ r c,
        (∃ row, row < n ∧ ∃ col, col < 8 ∧
          cpu.memory (cpu.I + row) &&& (0x80 >>> col) ≠ 0 ∧
          r = (cpu.V 1 + row) % 32 ∧ c = (cpu.V 0 + col) % 64) →
        d' r c = display r c ^^^ 1) ∧
      (∀ r c,
        (¬ ∃ row, row < n ∧ ∃ col, col < 8 ∧
          cpu.memory (cpu.I + row) &&& (0x80 >>> col) ≠ 0 ∧
          r = (cpu.V 1 + row) % 32 ∧ c = (cpu.V 0 + col) % 64) →
        d' r c = display r c) ∧
      cpu'.memory = cpu.memory ∧ cpu'.I = cpu.I ∧ cpu'.PC = cpu.PC ∧
      cpu'.SP = cpu.SP ∧ cpu'.stack = cpu.stack ∧
      cpu'.delay_timer = cpu.delay_timer ∧ cpu'.sound_timer = cpu.sound_timer ∧
      ∀ j, j ≠ 0xF → cpu'.V j = cpu.V j := by
  obtain ⟨vf, d', hrun, hcells⟩ := drawSprite_cells n cpu display (by omega) hmem
  refine ⟨setV cpu 0xF vf, d', hrun, ?_, ?_, rfl, rfl, rfl, rfl, rfl, rfl, rfl, ?_⟩
  · intro r c hit
    rw [(hcells r c).1 hit]
    obtain ⟨row, _, col, _, _, hr, hc⟩ := hit
    have h := hbyte r (by rw [hr]; exact Nat.mod_lt _ (by decide))
      c (by rw [hc]; exact Nat.mod_lt _ (by decide))
    have h1 : display r c ^^^ 1 < 2 ^ 8 :=
      Nat.xor_lt_two_pow (by simpa using h) (by decide)
    exact Nat.mod_eq_of_lt (by simpa using h1)
  · intro r c hno
    exact (hcells r c).2 hno
  · intro j hj
    show (if j = 0xF then vf else cpu.V j) = cpu.V j
    rw [if_neg hj]

/-- Witness for C17: the glyph "0" drawn at `(63, 30)` on the zero-filled
framebuffer. -/
theorem draw_is_xor_mask_witness :
    ∃ cpu' d', drawSprite 5 glyphCPU zeroDisplay = some (cpu', d') ∧
      (∀ r c,
        (∃ row, row < 5 ∧ ∃ col, col < 8 ∧
          glyphCPU.memory (glyphCPU.I + row) &&& (0x80 >>> col) ≠ 0 ∧
          r = (glyphCPU.V 1 + row) % 32 ∧ c = (glyphCPU.V 0 + col) % 64) →
        d' r c = zeroDisplay r c ^^^ 1) ∧
      (∀ r c,
        (¬ ∃ row, row < 5 ∧ ∃ col, col < 8 ∧
          glyphCPU.memory (glyphCPU.I + row) &&& (0x80 >>> col) ≠ 0 ∧
          r = (glyphCPU.V 1 + row) % 32 ∧ c = (glyphCPU.V 0 + col) % 64) →
        d' r c = zeroDisplay r c) ∧
      cpu'.memory = glyphCPU.memory ∧ cpu'.I = glyphCPU.I ∧ cpu'.PC = glyphCPU.PC ∧
      cpu'.SP = glyphCPU.SP ∧ cpu'.stack = glyphCPU.stack ∧
      cpu'.delay_timer = glyphCPU.delay_timer ∧
      cpu'.sound_timer = glyphCPU.sound_timer ∧
      ∀ j, j ≠ 0xF → cpu'.V j = glyphCPU.V j :=
  draw_is_xor_mask 5 glyphCPU zeroDisplay (by decide) (by decide)
    (fun _ _ _ _ => show (0 : Nat) < 256 by decide)

/-! ## Addresses and register indices -/

/-- While the sprite bytes lie inside memory, the row loop of the source and
the row loop with the specification's read `memory[(I + row) % MEM]` agree. -/
theorem forLoopM_drawRow_eq_spec (x y n : Nat) (s : CPU × Display)
    (hmem : s.1.I + n ≤ MEM) :
    forLoopM (drawRow x y) n s = forLoopM (specDrawRow x y) n s := by
  induction n with
  | zero => rfl
  | succ k ih =>
    obtain ⟨sk, hk⟩ := forLoopM_drawRow_returns x y k s (by omega)
    obtain ⟨vf, hvf⟩ := forLoopM_drawRow_cpu x y k s sk hk
    have hI : sk.1.I + k < MEM := by
      rw [hvf]
      show s.1.I + k < MEM
      omega
    have hk' : forLoopM (specDrawRow x y) k s = some sk := by
      rw [← ih (by omega)]
      exact hk
    simp only [forLoopM, hk, hk', drawRow, specDrawRow, if_pos hI, Nat.mod_eq_of_lt hI]

/-- C15, counterexample: with `I = 4095` and height 2, row 1 has
`I + 1 = 4096 = MEM`, an address outside memory, while `(I + 1) % MEM = 0`;
the routine of the source runs into the out-of-bounds read, where the routine
reading `memory[(I + row) % MEM]` would read `memory[0] = 0xF0` and set the
cell `(1, 0)`. -/
theorem sprite_read_not_reduced :
    edgeCPU.I + 1 = MEM ∧ (edgeCPU.I + 1) % MEM = 0 ∧
      (drawSprite 2 edgeCPU zeroDisplay).isSome = false ∧
      (specDrawSprite 2 edgeCPU zeroDisplay).map (fun p => p.2 1 0) = some 1 := by
  decide

/-- C15, amended: for every CPU state with `I + n ≤ 4096` and every row
`r < n`, the address `I + r` lies inside memory and equals `(I + r) % 4096`,
and the sprite-drawing routine returns the same machine as the routine that
reads `memory[(I + r) % 4096]`. -/
theorem sprite_reads_inside_memory (n : Nat) (cpu : CPU) (display : Display)
    (hmem : cpu.I + n ≤ MEM) :
    (∀ r, r < n → cpu.I + r < MEM ∧ (cpu.I + r) % MEM = cpu.I + r) ∧
      ∃ s', drawSprite n cpu display = some s' ∧
        specDrawSprite n cpu display = some s' := by
  constructor
  · intro r hr
    have h : cpu.I + r < MEM := by omega
    exact ⟨h, Nat.mod_eq_of_lt h⟩
  · obtain ⟨s', hs'⟩ :=
      forLoopM_drawRow_returns (cpu.V 0) (cpu.V 1) n (setV cpu 0xF 0, display) hmem
    refine ⟨s', hs', ?_⟩
    unfold specDrawSprite
    rw [← forLoopM_drawRow_eq_spec (cpu.V 0) (cpu.V 1) n (setV cpu 0xF 0, display) hmem]
    exact hs'

/-- Witness for C15 as amended: the 5-row glyph "0" at `I = 0`. -/
theorem sprite_reads_inside_memory_witness :
    (∀ r, r < 5 → glyphCPU.I + r < MEM ∧ (glyphCPU.I + r) % MEM = glyphCPU.I + r) ∧
      ∃ s', drawSprite 5 glyphCPU zeroDisplay = some s' ∧
        specDrawSprite 5 glyphCPU zeroDisplay = some s' :=
  sprite_reads_inside_memory 5 glyphCPU zeroDisplay (by decide)

end Chip8
